import Mathlib

/-!
Shallow embedding of the hermes.typeo module
(src/libs/hermes/hermes.typeo/hermes/typeo/__init__.py).

The module derives an argparse command-line parser from a Python
callable: its signature (parameter names, type hints, defaults),
its docstring (for per-argument help), and a custom multi-token
action for mapping-typed flags.  Type hints are embedded as the
inductive `Ann`, runtime values as `PyVal`, and the decoration-time
and parse-time exceptions as `PyErr`; fallible code returns
`Except PyErr`.  Python string operations used by the module
(single-character split, strip, startswith, substring membership of
a single character, single-character replace) are embedded as
executable functions over `List Char`.
-/

set_option maxHeartbeats 1000000

namespace Typeo

/-! ## Python string primitives -/

/-- Python whitespace characters, as recognised by str.strip(). -/
def isPySpace (c : Char) : Bool :=
  c = ' ' || c = '\t' || c = '\n' || c = '\r' || c = '\x0b' || c = '\x0c'

/-- Python str.strip(): drop whitespace from both ends. -/
def stripChars (cs : List Char) : List Char :=
  ((cs.dropWhile isPySpace).reverse.dropWhile isPySpace).reverse

/-- Python str.strip() lifted to strings. -/
def pyStrip (s : String) : String :=
  String.mk (stripChars s.data)

/-- Helper for Python str.split(sep) with a one-character separator:
accumulates the current field (reversed) while scanning. -/
def splitCharAux (sep : Char) : List Char → List Char → List (List Char)
  | [], acc => [acc.reverse]
  | c :: rest, acc =>
    if c = sep then acc.reverse :: splitCharAux sep rest []
    else splitCharAux sep rest (c :: acc)

/-- Python str.split(sep) for a one-character separator: keeps empty
fields, and yields one field even on the empty string. -/
def splitOnCharStr (sep : Char) (s : String) : List String :=
  (splitCharAux sep s.data []).map String.mk

/-- Python s.split with separator newline, used on docstrings. -/
def splitLines (s : String) : List String :=
  splitOnCharStr '\n' s

/-- Python membership test of a one-character needle in a string. -/
def containsChar (c : Char) (s : String) : Bool :=
  s.data.contains c

/-- Python str.startswith for the whole line. -/
def lineStartsWith (p s : String) : Bool :=
  p.data.isPrefixOf s.data

/-- Python name.replace with a one-character pattern, at the
character-list level: underscores become dashes. -/
def dashifyChars (cs : List Char) : List Char :=
  cs.map fun c => if c = '_' then '-' else c

/-- Python name.replace of underscores by dashes (line 336 of the
source: flag names render underscores as dashes). -/
def dashify (s : String) : String :=
  String.mk (dashifyChars s.data)

/-- The reverse one-character replace: dashes become underscores. -/
def undashifyChars (cs : List Char) : List Char :=
  cs.map fun c => if c = '-' then '_' else c

/-- Models how argparse derives the namespace attribute name (dest)
from a long option string: strip the leading double dash, then turn
the remaining dashes into underscores. -/
def destOfFlag (flag : String) : String :=
  String.mk (undashifyChars (flag.data.drop 2))

/-- Joins lines with newline separators; inverse of `splitLines` on
newline-free lines.  Used only to state docstring-level theorems. -/
def joinLines : List String → String
  | [] => ""
  | [l] => l
  | l :: ls => l ++ "\n" ++ joinLines ls

/-! ## Runtime values, exceptions, type hints -/

/-- A fragment of the Python value universe sufficient for the
defaults and parsed argument values the claims exercise. -/
inductive PyVal where
  | none_
  | bool (b : Bool)
  | int (n : Int)
  | str (s : String)
  deriving DecidableEq, Repr

/-- Python truthiness of a `PyVal`, as used by `not param.default`
on line 322 of the source. -/
def pyTruthy : PyVal → Bool
  | .none_ => false
  | .bool b => b
  | .int n => n != 0
  | .str s => !s.data.isEmpty

/-- The exceptions the module can raise.  The only behaviourally
relevant distinction among TypeErrors is whether the message contains
the word Subscripted, which `_parse_union` tests for; that is carried
as a separate constructor.  `attributeError` stands for an attribute
access that cannot fail on the inputs the module actually passes
(kept only for totality of the embedding). -/
inductive PyErr where
  | valueError
  | typeErrorSubscripted
  | typeErrorOther
  | assertionError
  | attributeError
  deriving DecidableEq, Repr

/-- Embedded type hints: the annotation shapes the module inspects.
`noneType` is the no-value marker in optionals, `ellipsisMark` the
variadic marker inside tuple hints, `empty` the missing-annotation
sentinel of the inspect module, and `setLike` a subscripted generic
whose origin the module does not recognise. -/
inductive Ann where
  | int
  | str
  | bool
  | float
  | noneType
  | ellipsisMark
  | empty
  | list_ (elem : Ann)
  | seq (elem : Ann)
  | tuple_ (hd : Ann) (tl : List Ann)
  | dict_ (key : Ann) (value : Ann)
  | union (a : Ann) (b : Ann)
  | setLike (elem : Ann)

mutual

/-- Structural equality on annotations; stands for the Python is and
equality comparisons the module performs on type hints.  Hand-rolled
because the nested list blocks the deriving handler. -/
def Ann.beq : Ann → Ann → Bool
  | .int, .int => true
  | .str, .str => true
  | .bool, .bool => true
  | .float, .float => true
  | .noneType, .noneType => true
  | .ellipsisMark, .ellipsisMark => true
  | .empty, .empty => true
  | .list_ a, .list_ b => Ann.beq a b
  | .seq a, .seq b => Ann.beq a b
  | .tuple_ a as, .tuple_ b bs => Ann.beq a b && Ann.beqList as bs
  | .dict_ k v, .dict_ k2 v2 => Ann.beq k k2 && Ann.beq v v2
  | .union a b, .union a2 b2 => Ann.beq a a2 && Ann.beq b b2
  | .setLike a, .setLike b => Ann.beq a b
  | _, _ => false

/-- Structural equality on lists of annotations. -/
def Ann.beqList : List Ann → List Ann → Bool
  | [], [] => true
  | a :: as, b :: bs => Ann.beq a b && Ann.beqList as bs
  | _, _ => false

end

instance : BEq Ann := ⟨Ann.beq⟩

mutual

theorem Ann.beq_refl : (a : Ann) → Ann.beq a a = true
  | .int => rfl
  | .str => rfl
  | .bool => rfl
  | .float => rfl
  | .noneType => rfl
  | .ellipsisMark => rfl
  | .empty => rfl
  | .list_ a => by simp [Ann.beq, Ann.beq_refl a]
  | .seq a => by simp [Ann.beq, Ann.beq_refl a]
  | .tuple_ a as => by simp [Ann.beq, Ann.beq_refl a, Ann.beqList_refl as]
  | .dict_ k v => by simp [Ann.beq, Ann.beq_refl k, Ann.beq_refl v]
  | .union a b => by simp [Ann.beq, Ann.beq_refl a, Ann.beq_refl b]
  | .setLike a => by simp [Ann.beq, Ann.beq_refl a]

theorem Ann.beqList_refl : (as : List Ann) → Ann.beqList as as = true
  | [] => rfl
  | a :: as => by simp [Ann.beqList, Ann.beq_refl a, Ann.beqList_refl as]

end

mutual

theorem Ann.eq_of_beq : (a b : Ann) → Ann.beq a b = true → a = b
  | .int, b, h => by cases b <;> simp [Ann.beq] at h <;> rfl
  | .str, b, h => by cases b <;> simp [Ann.beq] at h <;> rfl
  | .bool, b, h => by cases b <;> simp [Ann.beq] at h <;> rfl
  | .float, b, h => by cases b <;> simp [Ann.beq] at h <;> rfl
  | .noneType, b, h => by cases b <;> simp [Ann.beq] at h <;> rfl
  | .ellipsisMark, b, h => by cases b <;> simp [Ann.beq] at h <;> rfl
  | .empty, b, h => by cases b <;> simp [Ann.beq] at h <;> rfl
  | .list_ a, b, h => by
      cases b <;> simp [Ann.beq] at h
      case list_ b => exact congrArg Ann.list_ (Ann.eq_of_beq a b h)
  | .seq a, b, h => by
      cases b <;> simp [Ann.beq] at h
      case seq b => exact congrArg Ann.seq (Ann.eq_of_beq a b h)
  | .tuple_ a as, b, h => by
      cases b <;> simp [Ann.beq] at h
      case tuple_ b bs =>
        rw [Ann.eq_of_beq a b h.1, Ann.eqList_of_beqList as bs h.2]
  | .dict_ k v, b, h => by
      cases b <;> simp [Ann.beq] at h
      case dict_ k2 v2 =>
        rw [Ann.eq_of_beq k k2 h.1, Ann.eq_of_beq v v2 h.2]
  | .union a c, b, h => by
      cases b <;> simp [Ann.beq] at h
      case union a2 c2 =>
        rw [Ann.eq_of_beq a a2 h.1, Ann.eq_of_beq c c2 h.2]
  | .setLike a, b, h => by
      cases b <;> simp [Ann.beq] at h
      case setLike b => exact congrArg Ann.setLike (Ann.eq_of_beq a b h)

theorem Ann.eqList_of_beqList : (as bs : List Ann) → Ann.beqList as bs = true → as = bs
  | [], [], _ => rfl
  | [], _ :: _, h => by simp [Ann.beqList] at h
  | _ :: _, [], h => by simp [Ann.beqList] at h
  | a :: as, b :: bs, h => by
      simp [Ann.beqList] at h
      rw [Ann.eq_of_beq a b h.1, Ann.eqList_of_beqList as bs h.2]

end

instance : DecidableEq Ann := fun a b =>
  if h : Ann.beq a b = true then .isTrue (Ann.eq_of_beq a b h)
  else .isFalse fun he => h (he ▸ Ann.beq_refl a)

instance : LawfulBEq Ann where
  eq_of_beq h := Ann.eq_of_beq _ _ h
  rfl := Ann.beq_refl _

/-- The origins a subscripted hint can expose. -/
inductive Origin where
  | list
  | seq
  | tuple
  | dict
  | union
  | setLike
  deriving DecidableEq, Repr

/-- The origin attribute of a hint: `some` for subscripted generics,
`none` when the attribute access would raise AttributeError. -/
def hasOrigin : Ann → Option Origin
  | .list_ _ => some .list
  | .seq _ => some .seq
  | .tuple_ _ _ => some .tuple
  | .dict_ _ _ => some .dict
  | .union _ _ => some .union
  | .setLike _ => some .setLike
  | _ => none

/-- Parameter kinds reported by inspect.signature. -/
inductive ParamKind where
  | positionalOrKeyword
  | varPositional
  | varKeyword
  | keywordOnly
  deriving DecidableEq, Repr

/-- One parameter descriptor from inspect.signature: name, kind,
type hint, and default (`none` models the inspect empty sentinel,
`some .none_` a literal Python None default). -/
structure Param where
  name : String
  kind : ParamKind
  ann : Ann
  dflt : Option PyVal
  deriving DecidableEq

/-- The keyword arguments the source accumulates for one
parser.add_argument call.  `nargs_plus` records nargs set to
one-or-more, `dict_action` that the dict parsing action was chosen,
`store` models the store_true / store_false actions (which consume
no value token), `type_` the coercion type, `required` and `dflt`
the argparse required and default keywords. -/
structure ArgKwargs where
  nargs_plus : Bool := false
  dict_action : Bool := false
  help : String := ""
  type_ : Option Ann := none
  store : Option Bool := none
  required : Bool := false
  dflt : Option PyVal := none
  deriving DecidableEq

/-- One derived command-line option: the option string passed to
add_argument, the argparse-derived dest, and the keyword arguments. -/
structure ArgSpec where
  flag : String
  dest : String
  kwargs : ArgKwargs
  deriving DecidableEq

/-! ## Coercion callables -/

/-- Decimal digit run to a natural number. -/
def digitsToNat (ds : List Char) : Nat :=
  ds.foldl (fun a c => a * 10 + (c.toNat - 48)) 0

/-- Models the Python int builtin on optionally signed decimal
numerals (surrounding whitespace allowed); anything else raises
ValueError. -/
def pyIntCoerce (s : String) : Except PyErr PyVal :=
  match (pyStrip s).data with
  | '-' :: ds =>
    if !ds.isEmpty && ds.all Char.isDigit then .ok (.int (-(digitsToNat ds : Int)))
    else .error .valueError
  | ds =>
    if !ds.isEmpty && ds.all Char.isDigit then .ok (.int (digitsToNat ds : Int))
    else .error .valueError

/-- Models the Python str builtin applied to a string: the identity,
and it never raises. -/
def pyStrCoerce (s : String) : Except PyErr PyVal :=
  .ok (.str s)

/-! ## The dictionary parsing action (source lines 8 to 39) -/

/-- The value a mapping-typed flag ends up with: either a bare scalar
(the single-token shortcut) or a mapping. -/
inductive DictResult where
  | scalar (v : PyVal)
  | dictVal (entries : List (String × PyVal))
  deriving DecidableEq

/-- Python dict item assignment on an insertion-ordered association
list: an existing key is updated in place, a new key is appended. -/
def dictInsert (acc : List (String × PyVal)) (k : String) (v : PyVal) :
    List (String × PyVal) :=
  if acc.any (fun p => p.1 == k) then
    acc.map fun p => if p.1 = k then (k, v) else p
  else acc ++ [(k, v)]

/-- The loop of `_DictParsingAction.__call__` (source lines 35 to 38):
each token is split on every equals sign and unpacked into exactly a
key and a value (any other number of fields raises ValueError, the
tuple-unpacking failure), the value is coerced with the stored value
type, and the pair is written into the dictionary. -/
def buildDictEntries (coerce : String → Except PyErr PyVal) :
    List String → List (String × PyVal) → Except PyErr (List (String × PyVal))
  | [], acc => .ok acc
  | v :: rest, acc =>
    match splitOnCharStr '=' v with
    | [k, value] =>
      match coerce value with
      | .ok pv => buildDictEntries coerce rest (dictInsert acc k pv)
      | .error e => .error e
    | _ => .error .valueError

/-- `_DictParsingAction.__call__` (source lines 30 to 39): one token
without an equals sign is coerced directly and stored as a scalar;
otherwise the tokens are accumulated into a dictionary. -/
def dictParsingAction (coerce : String → Except PyErr PyVal)
    (values : List String) : Except PyErr DictResult :=
  match values with
  | [v] =>
    if !containsChar '=' v then (coerce v).map .scalar
    else (buildDictEntries coerce values []).map .dictVal
  | _ => (buildDictEntries coerce values []).map .dictVal

/-! ## Annotation resolution (source lines 42 to 176) -/

/-- The Python isinstance(None, x) test of `_parse_union` line 79:
True exactly on the NoneType marker; a subscripted generic raises the
TypeError whose message mentions Subscripted; the Ellipsis object is
not a type and raises a different TypeError. -/
def isinstanceNone : Ann → Except PyErr Bool
  | .noneType => .ok true
  | .int | .str | .bool | .float | .empty => .ok false
  | .list_ _ | .seq _ | .tuple_ _ _ | .dict_ _ _ | .union _ _ | .setLike _ =>
    .error .typeErrorSubscripted
  | .ellipsisMark => .error .typeErrorOther

/-- `_enforce_array_like` (source lines 42 to 71): takes the union
hint, moves to its second member, and checks that the member is a
container whose element (for a mapping: value) type is the union's
first member; for a tuple every arg, the Ellipsis included, must be
that type.  A recognised failure is an AssertionError; an unknown or
missing origin raises a TypeError whose message does not mention
Subscripted.  Returns the container member on success. -/
def enforce_array_like (ann type_ : Ann) (_name : String) : Except PyErr Ann :=
  match ann with
  | .union _ b =>
    match b with
    | .list_ e => if Ann.beq e type_ then .ok b else .error .assertionError
    | .seq e => if Ann.beq e type_ then .ok b else .error .assertionError
    | .dict_ _ v => if Ann.beq v type_ then .ok b else .error .assertionError
    | .tuple_ hd tl =>
      if (hd :: tl).all (fun a => Ann.beq a type_) then .ok b
      else .error .assertionError
    | .union _ _ => .error .typeErrorOther
    | .setLike _ => .error .typeErrorOther
    | _ => .error .typeErrorOther
  | _ => .error .attributeError

/-- `_parse_union` (source lines 74 to 98): for a union hint, if the
second member is the NoneType marker the default must be a literal
None (else ValueError) and the first member is the resolved hint;
if the isinstance test raises the Subscripted TypeError the union is
checked as a union with a container instead.  TypeErrors raised by
`_enforce_array_like` itself never mention Subscripted, so the except
clause reraises them unchanged; the call is modelled directly. -/
def parse_union (p : Param) : Except PyErr Ann :=
  match p.ann with
  | .union a b =>
    match isinstanceNone b with
    | .ok true =>
      if p.dflt = some .none_ then .ok a else .error .valueError
    | .ok false => enforce_array_like (.union a b) a p.name
    | .error .typeErrorSubscripted => enforce_array_like (.union a b) a p.name
    | .error e => .error e
  | _ => .error .attributeError

/-- `_get_origin_and_type` (source lines 101 to 121): the origin when
the hint has one, otherwise the hint itself as the type. -/
def get_origin_and_type (ann : Ann) : Option Origin × Option Ann :=
  match hasOrigin ann with
  | some o => (some o, none)
  | none => (none, some ann)

/-- `_parse_array_like` (source lines 124 to 176): for a recognised
container origin set nargs to one-or-more; for a mapping choose the
dictionary action, assert the key type is string and return the value
type; otherwise return the element type, checking for a tuple that
every arg other than Ellipsis equals the first; a subscripted hint
with any other origin raises TypeError.  No origin returns nothing.
The wildcard arms stand for attribute accesses that cannot fail on
hints whose origin matches the constructor. -/
def parse_array_like (ann : Ann) (origin : Option Origin) (kw : ArgKwargs) :
    Except PyErr (Option Ann × ArgKwargs) :=
  match origin with
  | none => .ok (none, kw)
  | some o =>
    if o = .list ∨ o = .tuple ∨ o = .dict ∨ o = .seq then
      let kw := { kw with nargs_plus := true }
      if o = .dict then
        let kw := { kw with dict_action := true }
        match ann with
        | .dict_ k v => if Ann.beq k .str then .ok (some v, kw) else .error .assertionError
        | _ => .error .attributeError
      else
        match ann with
        | .list_ e => .ok (some e, kw)
        | .seq e => .ok (some e, kw)
        | .tuple_ hd tl =>
          if tl.all (fun a => Ann.beq a .ellipsisMark || Ann.beq a hd) then
            .ok (some hd, kw)
          else .error .assertionError
        | _ => .error .attributeError
    else .error .typeErrorOther

/-! ## Help extraction (source lines 179 to 222) -/

/-- The line scan of `_parse_help`: a line of exactly eight spaces,
the argument name and a colon starts the block; once started, the
first line not indented by twelve spaces ends it; other started lines
are stripped and appended after a single space. -/
def parseHelpLines (argName : String) : List String → String → Bool → String
  | [], docStr, _ => docStr
  | line :: rest, docStr, started =>
    if line = "        " ++ argName ++ ":" then
      parseHelpLines argName rest docStr true
    else if !(lineStartsWith "            " line) && started then
      docStr
    else if started then
      parseHelpLines argName rest (docStr ++ " " ++ pyStrip line) started
    else
      parseHelpLines argName rest docStr started

/-- `_parse_help` (source lines 213 to 222). -/
def parse_help (args argName : String) : String :=
  parseHelpLines argName (splitLines args) "" false

/-! ## Parser construction (source lines 225 to 338) -/

/-- The Python test type underscore is bool on line 311, an identity
comparison against the bool builtin. -/
def isBoolOpt : Option Ann → Bool
  | some .bool => true
  | _ => false

/-- The tail of the loop body of `make_parser` after the union hint,
if any, has been resolved (source lines 301 to 337): run the
array-like processing, fall back to the already extracted type when
it yields nothing, attach the help string, then either choose a
store_true or store_false action for a bool (the opposite of the
truthiness of the default when one exists) or record the coercion
type together with required (no default) or the default; finally
derive the option string with underscores rendered as dashes, from
which argparse derives the dest by stripping the leading dashes and
mapping dashes back to underscores. -/
def processResolved (argsDoc name : String) (dflt : Option PyVal)
    (ann : Ann) (origin : Option Origin) (type0 : Option Ann) :
    Except PyErr ArgSpec :=
  match parse_array_like ann origin {} with
  | .error e => .error e
  | .ok (arrType, kw) =>
    let type_ : Option Ann := match arrType with | some t => some t | none => type0
    let kw := { kw with help := parse_help argsDoc name }
    let kw :=
      if isBoolOpt type_ then
        match dflt with
        | none => { kw with store := some true }
        | some d => { kw with store := some (!pyTruthy d) }
      else
        let kw := { kw with type_ := type_ }
        match dflt with
        | none => { kw with required := true }
        | some d => { kw with dflt := some d }
    let flag := "--" ++ dashify name
    .ok { flag := flag, dest := destOfFlag flag, kwargs := kw }

/-- One iteration of the loop of `make_parser` (source lines 282 to
337): extract origin and type, resolve a union hint through
`_parse_union` and re-extract, then finish with `processResolved`.
The parameter kind reported by the signature is never consulted. -/
def processParam (argsDoc : String) (p : Param) : Except PyErr ArgSpec :=
  let ot := get_origin_and_type p.ann
  if ot.1 = some Origin.union then
    match parse_union p with
    | .ok ann =>
      processResolved argsDoc p.name p.dflt ann
        (get_origin_and_type ann).1 (get_origin_and_type ann).2
    | .error e => .error e
  else
    processResolved argsDoc p.name p.dflt p.ann ot.1 ot.2

/-- `make_parser` over the ordered parameter list (source lines 282
to 338): each parameter yields one option; the first failure aborts
construction.  The docstring splitting into description and args
sections (lines 250 to 270) is not claim-relevant and the args
section is taken as given. -/
def makeParser (argsDoc : String) (params : List Param) :
    Except PyErr (List ArgSpec) :=
  params.mapM (processParam argsDoc)

/-- The value a store-action flag produces at parse time, per
argparse semantics: such a flag consumes no value token; present, it
stores the constant; absent, the namespace holds the opposite
constant (store_true defaults to False and store_false to True). -/
def flagValue (spec : ArgSpec) (present : Bool) : Option PyVal :=
  match spec.kwargs.store with
  | some b => some (.bool (if present then b else !b))
  | none => none

/-! ## The invocation wrapper (source lines 407 to 436) -/

/-- The wrapper closure built by typeo (source lines 411 to 415 and
428 to 432): a call with no positional and no keyword arguments
parses the process argument vector and passes the resulting mapping
as keyword arguments; any other call passes the arguments through
unchanged.  The parser.parse_args call reading the argument vector is
abstracted as the closed-over function parseArgv. -/
def typeo_wrapper {α : Type} (f : List PyVal → List (String × PyVal) → α)
    (parseArgv : List String → List (String × PyVal)) (argv : List String)
    (args : List PyVal) (kwargs : List (String × PyVal)) : α :=
  if args.length = kwargs.length ∧ kwargs.length = 0 then f [] (parseArgv argv)
  else f args kwargs

/-! ## Specification-side vocabulary (used only in theorem statements) -/

/-- The decomposition of one token into key and value when the token
contains exactly one separator, nothing otherwise. -/
def tokenKV (t : String) : Option (String × String) :=
  match splitOnCharStr '=' t with
  | [k, v] => some (k, v)
  | _ => none

/-- A token is processable in the multi-token path: it decomposes and
its value part coerces. -/
def tokenOk (coerce : String → Except PyErr PyVal) (t : String) : Bool :=
  match tokenKV t with
  | some kv => (coerce kv.2).isOk
  | none => false

/-- The value part of the last token whose key part is the given key:
the mapping the amended claim predicts, read off the token list. -/
def lastKV (values : List String) (k : String) : Option String :=
  match values with
  | [] => none
  | t :: rest =>
    match lastKV rest k with
    | some v => some v
    | none =>
      match tokenKV t with
      | some kv => if kv.1 = k then some kv.2 else none
      | none => none

/-- Union-shaped hint test, used to state side conditions. -/
def isUnionAnn : Ann → Bool
  | .union _ _ => true
  | _ => false

/-- Container-shaped hint test: the shapes the resolver recognises as
containers. -/
def isContainerAnn : Ann → Bool
  | .list_ _ => true
  | .seq _ => true
  | .tuple_ _ _ => true
  | .dict_ _ _ => true
  | _ => false

/-- What the code accumulates for a help block: for each continuation
line, one space followed by the stripped line. -/
def helpConcat (ls : List String) : String :=
  match ls with
  | [] => ""
  | l :: rest => " " ++ pyStrip l ++ helpConcat rest

/-- The marker line that starts the help block of an argument. -/
def markerOf (argName : String) : String :=
  "        " ++ argName ++ ":"

/-- A concrete callable for witnesses: returns its arguments. -/
def demoF (args : List PyVal) (kwargs : List (String × PyVal)) :
    List PyVal × List (String × PyVal) :=
  (args, kwargs)

/-- A concrete parse function for witnesses. -/
def demoParse (argv : List String) : List (String × PyVal) :=
  [("a", .str (argv.headD ""))]

/-- Point-free option-string builder, for theorem statements. -/
def flagOfName (n : String) : String :=
  "--" ++ dashify n

/-! ## Helper lemmas -/

@[simp]
theorem Ann.beq_eq_true_iff (a b : Ann) : Ann.beq a b = true ↔ a = b :=
  ⟨Ann.eq_of_beq a b, fun h => h ▸ Ann.beq_refl a⟩

theorem str_mk_data (s : String) : String.mk s.data = s := rfl

theorem splitCharAux_not_mem (sep : Char) (cs acc : List Char) (h : sep ∉ cs) :
    splitCharAux sep cs acc = [acc.reverse ++ cs] := by
  induction cs generalizing acc with
  | nil => simp [splitCharAux]
  | cons c rest ih =>
    have hc : ¬c = sep := fun he => h (he ▸ List.mem_cons_self c rest)
    have hr : sep ∉ rest := fun hm => h (List.mem_cons_of_mem c hm)
    simp [splitCharAux, hc, ih (c :: acc) hr]

theorem splitCharAux_append_sep (sep : Char) (xs ys acc : List Char)
    (h : sep ∉ xs) :
    splitCharAux sep (xs ++ sep :: ys) acc =
      (acc.reverse ++ xs) :: splitCharAux sep ys [] := by
  induction xs generalizing acc with
  | nil => simp [splitCharAux]
  | cons x rest ih =>
    have hx : ¬x = sep := fun he => h (he ▸ List.mem_cons_self x rest)
    have hr : sep ∉ rest := fun hm => h (List.mem_cons_of_mem x hm)
    simp [splitCharAux, hx, ih (x :: acc) hr]

theorem splitLines_joinLines (ls : List String) (hne : ls ≠ [])
    (h : ∀ l ∈ ls, '\n' ∉ l.data) : splitLines (joinLines ls) = ls := by
  induction ls with
  | nil => exact absurd rfl hne
  | cons l rest ih =>
    cases rest with
    | nil =>
      have hl : '\n' ∉ l.data := h l (List.mem_cons_self l [])
      simp [joinLines, splitLines, splitOnCharStr, splitCharAux_not_mem '\n' l.data [] hl,
        str_mk_data]
    | cons l2 rest2 =>
      have hl : '\n' ∉ l.data := h l (List.mem_cons_self l _)
      have hdata : (l ++ "\n" ++ joinLines (l2 :: rest2)).data =
          l.data ++ '\n' :: (joinLines (l2 :: rest2)).data := by
        simp [String.data_append]
      have ihr := ih (by simp) (fun x hx => h x (List.mem_cons_of_mem l hx))
      simp only [joinLines, splitLines, splitOnCharStr] at ihr ⊢
      rw [hdata, splitCharAux_append_sep '\n' l.data _ [] hl]
      simp [str_mk_data, ihr]

/-! ## C1 -/

/-- C1: invoking the wrapper with no positional and no keyword
arguments parses the argument vector and calls the wrapped callable
with the resulting mapping as keyword arguments; invoking it with any
explicit arguments calls the callable with exactly those arguments,
independently of the argument vector; in both cases the return value
is the callable's own. -/
theorem claim_C1 {α : Type} (f : List PyVal → List (String × PyVal) → α)
    (parse : List String → List (String × PyVal)) (argv argv2 : List String)
    (args : List PyVal) (kwargs : List (String × PyVal)) :
    (args = [] ∧ kwargs = [] →
      typeo_wrapper f parse argv args kwargs = f [] (parse argv)) ∧
    (¬(args = [] ∧ kwargs = []) →
      typeo_wrapper f parse argv args kwargs = f args kwargs ∧
      typeo_wrapper f parse argv args kwargs =
        typeo_wrapper f parse argv2 args kwargs) := by
  constructor
  · rintro ⟨ha, hk⟩
    subst ha; subst hk
    simp [typeo_wrapper]
  · intro h
    have hc : ¬(args.length = kwargs.length ∧ kwargs.length = 0) := by
      rintro ⟨h1, h2⟩
      exact h ⟨List.length_eq_zero.mp (h1.trans h2), List.length_eq_zero.mp h2⟩
    constructor <;> simp only [typeo_wrapper, if_neg hc]

theorem claim_C1_witness :
    typeo_wrapper demoF demoParse ["7"] [] [] = demoF [] (demoParse ["7"]) :=
  (claim_C1 demoF demoParse ["7"] ["7"] [] []).1 ⟨rfl, rfl⟩

/-! ## C3 -/

/-- C3: a single token without the separator is coerced with the
value type and stored as a bare scalar, never entering dictionary
construction. -/
theorem claim_C3 (coerce : String → Except PyErr PyVal) (t : String)
    (h : containsChar '=' t = false) :
    dictParsingAction coerce [t] = (coerce t).map DictResult.scalar := by
  simp [dictParsingAction, h]

theorem claim_C3_witness :
    dictParsingAction pyIntCoerce ["5"] = .ok (.scalar (.int 5)) := by
  rw [claim_C3 pyIntCoerce "5" (by decide)]
  rfl

/-! ## C5 -/

/-- C5: a parameter with the bool hint yields a flag that is never
required and consumes no value token (a store action with no type
coercion); with no default, presence yields true and absence false;
with a default, presence yields the negation of the default and
absence the default. -/
theorem claim_C5 (doc n : String) (k : ParamKind) (d : Option Bool) :
    ∃ spec, processParam doc ⟨n, k, .bool, d.map .bool⟩ = .ok spec ∧
      spec.kwargs.required = false ∧
      spec.kwargs.nargs_plus = false ∧
      spec.kwargs.type_ = none ∧
      (spec.kwargs.store).isSome = true ∧
      flagValue spec true = some (.bool ((d.map (fun b => !b)).getD true)) ∧
      flagValue spec false = some (.bool (d.getD false)) := by
  cases d with
  | none => exact ⟨_, rfl, rfl, rfl, rfl, rfl, rfl, rfl⟩
  | some b => cases b <;> exact ⟨_, rfl, rfl, rfl, rfl, rfl, rfl, rfl⟩

/-! ## C4 -/

/-- C4: a parameter hinted as the union of a type and the no-value
marker builds successfully exactly when its default is the literal
no-value; every other default, a missing one included, aborts
construction with the decoration-time ValueError; on success the
parameter is processed exactly as if hinted with the other member
alone. -/
theorem claim_C4 (doc n : String) (k : ParamKind) (T : Ann) (d : Option PyVal)
    (hT : isUnionAnn T = false) :
    (d ≠ some .none_ →
      processParam doc ⟨n, k, .union T .noneType, d⟩ = .error .valueError) ∧
    (d = some .none_ →
      processParam doc ⟨n, k, .union T .noneType, d⟩ =
        processParam doc ⟨n, k, T, d⟩) := by
  constructor
  · intro hd
    simp [processParam, get_origin_and_type, hasOrigin, parse_union,
      isinstanceNone, hd]
  · intro hd
    subst hd
    have hne : (get_origin_and_type T).1 ≠ some Origin.union := by
      cases T <;> simp_all [get_origin_and_type, hasOrigin, isUnionAnn]
    simp [processParam, get_origin_and_type, hasOrigin, parse_union,
      isinstanceNone]
    rw [if_neg (by simpa [get_origin_and_type] using hne)]

theorem claim_C4_witness :
    processParam "" ⟨"x", .positionalOrKeyword, .union .int .noneType,
        some .none_⟩ =
      processParam "" ⟨"x", .positionalOrKeyword, .int, some .none_⟩ :=
  (claim_C4 "" "x" .positionalOrKeyword .int (some .none_) rfl).2 rfl

/-! ## C7 -/

/-- C7 counterexample: a hint of a list whose element type is itself
a list is accepted: the per-parameter resolution succeeds and the
parser is built, where the claim predicts a ConfigError at the
container-resolution step. -/
theorem claim_C7_counterexample :
    (processParam "" ⟨"x", .positionalOrKeyword, .list_ (.list_ .int),
        none⟩).isOk = true ∧
    (makeParser "" [⟨"x", .positionalOrKeyword, .list_ (.list_ .int),
        none⟩]).isOk = true :=
  ⟨rfl, rfl⟩

/-- Helper for C7: a tuple hint whose args are the given element or
the variadic marker resolves without error to that element type, for
any non-bool element. -/
theorem processParam_tuple_ok (doc n : String) (k : ParamKind)
    (d : Option PyVal) (e : Ann) (tl : List Ann)
    (hbool : isBoolOpt (some e) = false)
    (htl : ∀ a ∈ tl, a = Ann.ellipsisMark ∨ a = e) :
    ∃ spec, processParam doc ⟨n, k, .tuple_ e tl, d⟩ = .ok spec ∧
      spec.kwargs.type_ = some e ∧ spec.kwargs.nargs_plus = true := by
  have hall : tl.all (fun a => Ann.beq a .ellipsisMark || Ann.beq a e) = true := by
    rw [List.all_eq_true]
    intro a ha
    rcases htl a ha with h1 | h1 <;> simp [h1, Ann.beq_refl]
  have h1 : processParam doc ⟨n, k, .tuple_ e tl, d⟩ =
      processResolved doc n d (.tuple_ e tl) (some Origin.tuple) none := rfl
  have h2 : parse_array_like (.tuple_ e tl) (some Origin.tuple)
        ({} : ArgKwargs) =
      .ok (some e, { ({} : ArgKwargs) with nargs_plus := true }) := by
    simp [parse_array_like, hall]
  rw [h1]
  simp only [processResolved, h2, hbool]
  cases d <;> exact ⟨_, rfl, rfl, rfl⟩

/-- C7 amended: a container hint whose element type is itself a
container is not rejected, for every recognised outer container
shape: a list, an ordered sequence, a tuple (its other args being
the element or the variadic marker), or a string-keyed mapping with
a container value type.  In each shape resolution succeeds, the
inner container hint is recorded as the coercion type of the flag,
and the flag takes one-or-more tokens (a mapping additionally gets
the dictionary action). -/
theorem claim_C7 (doc n : String) (k : ParamKind) (d : Option PyVal) (e : Ann)
    (he : isContainerAnn e = true) :
    (∃ spec, processParam doc ⟨n, k, .list_ e, d⟩ = .ok spec ∧
      spec.kwargs.type_ = some e ∧ spec.kwargs.nargs_plus = true) ∧
    (∃ spec, processParam doc ⟨n, k, .seq e, d⟩ = .ok spec ∧
      spec.kwargs.type_ = some e ∧ spec.kwargs.nargs_plus = true) ∧
    (∀ tl, (∀ a ∈ tl, a = Ann.ellipsisMark ∨ a = e) →
      ∃ spec, processParam doc ⟨n, k, .tuple_ e tl, d⟩ = .ok spec ∧
        spec.kwargs.type_ = some e ∧ spec.kwargs.nargs_plus = true) ∧
    (∃ spec, processParam doc ⟨n, k, .dict_ .str e, d⟩ = .ok spec ∧
      spec.kwargs.type_ = some e ∧ spec.kwargs.nargs_plus = true ∧
      spec.kwargs.dict_action = true) := by
  have hbool : isBoolOpt (some e) = false := by
    cases e <;> simp_all [isBoolOpt, isContainerAnn]
  refine ⟨?_, ?_,
    fun tl htl => processParam_tuple_ok doc n k d e tl hbool htl, ?_⟩
  · cases e <;> try (cases d <;> exact ⟨_, rfl, rfl, rfl⟩)
    all_goals simp [isContainerAnn] at he
  · cases e <;> try (cases d <;> exact ⟨_, rfl, rfl, rfl⟩)
    all_goals simp [isContainerAnn] at he
  · cases e <;> try (cases d <;> exact ⟨_, rfl, rfl, rfl, rfl⟩)
    all_goals simp [isContainerAnn] at he

theorem claim_C7_witness :
    ∃ spec, processParam "" ⟨"y", .positionalOrKeyword,
        .tuple_ (.seq .str) [.ellipsisMark], none⟩ = .ok spec ∧
      spec.kwargs.type_ = some (.seq .str) ∧ spec.kwargs.nargs_plus = true :=
  (claim_C7 "" "y" .positionalOrKeyword none (.seq .str)
    (by decide)).2.2.1 [.ellipsisMark] (by decide)

/-! ## C8 -/

/-- C8 counterexample: a signature whose parameters are the variadic
collections is accepted: the parser is built without any error, where
the claim predicts a decoration-time SignatureError. -/
theorem claim_C8_counterexample :
    (makeParser "" [⟨"args", .varPositional, .empty, none⟩,
        ⟨"kwargs", .varKeyword, .empty, none⟩]).isOk = true :=
  rfl

/-- C8 amended: parameter kinds play no role in parser construction:
reassigning every parameter kind, the variadic kinds included, leaves
the built parser unchanged, so variadic collection parameters are
processed like any others rather than rejected. -/
theorem claim_C8 (doc : String) (params : List Param)
    (reassign : Param → ParamKind) :
    makeParser doc (params.map fun p => { p with kind := reassign p }) =
      makeParser doc params := by
  induction params with
  | nil => rfl
  | cons p rest ih =>
    simp only [makeParser] at ih ⊢
    simp only [List.map_cons, List.mapM_cons]
    rw [show processParam doc { p with kind := reassign p } =
          processParam doc p from rfl, ih]

/-! ## C9 -/

/-- C9 counterexample: the hint union of int with the variadic tuple
of int is rejected with an AssertionError, while the same variadic
tuple hint used directly is accepted: the claim, which predicts that
the variadic marker is permitted in both positions, is false for the
union position. -/
theorem claim_C9_counterexample :
    (processParam "" ⟨"x", .positionalOrKeyword,
        .union .int (.tuple_ .int [.ellipsisMark]), none⟩).isOk = false ∧
    (processParam "" ⟨"x", .positionalOrKeyword,
        .tuple_ .int [.ellipsisMark], none⟩).isOk = true :=
  ⟨rfl, rfl⟩

/-- C9 amended: for a tuple hint used directly, construction succeeds
exactly when every arg after the first is either the variadic marker
or equal to the first; for a tuple hint inside a union, every arg,
the variadic marker included, must equal the union's first member, so
a variadic tuple inside a union fails with an AssertionError whenever
that member is not itself the marker. -/
theorem claim_C9 (n : String) (t T : Ann) (tl : List Ann) (kw : ArgKwargs) :
    ((∀ a ∈ tl, a = Ann.ellipsisMark ∨ a = t) →
      parse_array_like (.tuple_ t tl) (hasOrigin (.tuple_ t tl)) kw =
        .ok (some t, { kw with nargs_plus := true })) ∧
    ((∃ a ∈ tl, a ≠ Ann.ellipsisMark ∧ a ≠ t) →
      parse_array_like (.tuple_ t tl) (hasOrigin (.tuple_ t tl)) kw =
        .error .assertionError) ∧
    ((∀ a ∈ t :: tl, a = T) →
      enforce_array_like (.union T (.tuple_ t tl)) T n = .ok (.tuple_ t tl)) ∧
    ((∃ a ∈ t :: tl, a ≠ T) →
      enforce_array_like (.union T (.tuple_ t tl)) T n =
        .error .assertionError) ∧
    (T ≠ .ellipsisMark → Ann.ellipsisMark ∈ t :: tl →
      enforce_array_like (.union T (.tuple_ t tl)) T n =
        .error .assertionError) := by
  have h4 : (∃ a ∈ t :: tl, a ≠ T) →
      enforce_array_like (.union T (.tuple_ t tl)) T n =
        .error .assertionError := by
    rintro ⟨a, ha, hne⟩
    have hall : ¬((t :: tl).all (fun a => Ann.beq a T) = true) := by
      rw [List.all_eq_true]
      intro hall
      exact hne (Ann.eq_of_beq a T (hall a ha))
    simp [enforce_array_like, hall]
  refine ⟨?_, ?_, ?_, h4, ?_⟩
  · intro h
    have hall : tl.all (fun a => Ann.beq a .ellipsisMark || Ann.beq a t) = true := by
      rw [List.all_eq_true]
      intro a ha
      rcases h a ha with h1 | h1 <;> simp [h1, Ann.beq_refl]
    simp [parse_array_like, hasOrigin, hall]
  · rintro ⟨a, ha, h1, h2⟩
    have hall : ¬(tl.all (fun a => Ann.beq a .ellipsisMark || Ann.beq a t) = true) := by
      rw [List.all_eq_true]
      intro hall
      rcases Bool.or_eq_true_iff.mp (hall a ha) with hb | hb
      · exact h1 (Ann.eq_of_beq _ _ hb)
      · exact h2 (Ann.eq_of_beq _ _ hb)
    simp [parse_array_like, hasOrigin, hall]
  · intro h
    have hall : (t :: tl).all (fun a => Ann.beq a T) = true := by
      rw [List.all_eq_true]
      intro a ha
      simp [h a ha, Ann.beq_refl]
    simp [enforce_array_like, hall]
  · intro hT hm
    exact h4 ⟨.ellipsisMark, hm, Ne.symm hT⟩

theorem claim_C9_witness :
    parse_array_like (.tuple_ .int [.ellipsisMark])
        (hasOrigin (.tuple_ .int [.ellipsisMark])) {} =
      .ok (some .int, { ({} : ArgKwargs) with nargs_plus := true }) :=
  (claim_C9 "w" .int .float [.ellipsisMark] {}).1 (by decide)

/-! ## C10 -/

theorem undash_dash_chars (cs : List Char) (h : '-' ∉ cs) :
    undashifyChars (dashifyChars cs) = cs := by
  induction cs with
  | nil => rfl
  | cons c rest ih =>
    have hc : c ≠ '-' := fun he => h (he ▸ List.mem_cons_self c rest)
    have hr : '-' ∉ rest := fun hm => h (List.mem_cons_of_mem c hm)
    simp only [dashifyChars, undashifyChars, List.map_cons] at ih ⊢
    rw [ih hr]
    by_cases hu : c = '_'
    · simp [hu]
    · simp [hu, hc]

theorem processResolved_names (argsDoc name : String) (dflt : Option PyVal)
    (ann : Ann) (origin : Option Origin) (type0 : Option Ann) (spec : ArgSpec)
    (h : processResolved argsDoc name dflt ann origin type0 = .ok spec) :
    spec.flag = flagOfName name ∧
      spec.dest = String.mk (undashifyChars (dashifyChars name.data)) := by
  unfold processResolved at h
  cases hpa : parse_array_like ann origin {} with
  | error e => rw [hpa] at h; cases h
  | ok pr =>
    obtain ⟨arrType, kw⟩ := pr
    rw [hpa] at h
    simp only at h
    injection h with h2
    subst h2
    refine ⟨rfl, ?_⟩
    show destOfFlag ("--" ++ dashify name) = _
    unfold destOfFlag
    rw [String.data_append]
    rfl

theorem processParam_names (doc : String) (p : Param) (spec : ArgSpec)
    (h : processParam doc p = .ok spec) :
    spec.flag = flagOfName p.name ∧
      spec.dest = String.mk (undashifyChars (dashifyChars p.name.data)) := by
  unfold processParam at h
  by_cases hu : (get_origin_and_type p.ann).1 = some Origin.union
  · rw [if_pos hu] at h
    cases hpu : parse_union p with
    | error e => rw [hpu] at h; cases h
    | ok ann =>
      rw [hpu] at h
      exact processResolved_names _ _ _ _ _ _ _ h
  · rw [if_neg hu] at h
    exact processResolved_names _ _ _ _ _ _ _ h

/-- C10: although each flag renders the underscores of its parameter
name as dashes, the dest under which a parsed value is stored maps
the dashes back, so the mapping handed to the callable as keyword
arguments is keyed by exactly the original parameter names, in
order. -/
theorem claim_C10 (doc : String) (params : List Param) (specs : List ArgSpec)
    (h : makeParser doc params = .ok specs)
    (hn : ∀ p ∈ params, '-' ∉ p.name.data) :
    specs.map ArgSpec.dest = params.map Param.name ∧
      specs.map ArgSpec.flag = params.map (flagOfName ∘ Param.name) := by
  induction params generalizing specs with
  | nil =>
    simp only [makeParser, List.mapM_nil] at h
    injection h with h2
    subst h2
    exact ⟨rfl, rfl⟩
  | cons p rest ih =>
    simp only [makeParser, List.mapM_cons] at h
    cases hp : processParam doc p with
    | error e => rw [hp] at h; cases h
    | ok s =>
      rw [hp] at h
      cases hr : rest.mapM (processParam doc) with
      | error e => rw [hr] at h; cases h
      | ok ss =>
        rw [hr] at h
        simp only [bind, Except.bind, pure, Except.pure] at h
        injection h with h2
        subst h2
        have hrest := ih ss hr (fun q hq => hn q (List.mem_cons_of_mem p hq))
        have hnames := processParam_names doc p s hp
        have hdest : s.dest = p.name := by
          rw [hnames.2, undash_dash_chars p.name.data
            (hn p (List.mem_cons_self p rest)), str_mk_data]
        simp [hdest, hnames.1, hrest.1, hrest.2]

/-! ## C2 -/

theorem tokenKV_some_iff (t k v : String) :
    tokenKV t = some (k, v) ↔ splitOnCharStr '=' t = [k, v] := by
  unfold tokenKV
  rcases hs : splitOnCharStr '=' t with _ | ⟨a, _ | ⟨b, _ | cs⟩⟩ <;> simp

theorem contains_of_tokenKV (t : String) (kv : String × String)
    (h : tokenKV t = some kv) : containsChar '=' t = true := by
  by_contra hc
  have hnm : '=' ∉ t.data := by
    have : containsChar '=' t = false := by
      cases hcc : containsChar '=' t
      · rfl
      · exact absurd hcc hc
    simpa [containsChar] using this
  have hsplit : splitOnCharStr '=' t = [t] := by
    simp [splitOnCharStr, splitCharAux_not_mem '=' t.data [] hnm, str_mk_data]
  rw [show kv = (kv.1, kv.2) from rfl, tokenKV_some_iff, hsplit] at h
  have := congrArg List.length h
  simp at this

theorem lookup_cons_eq_key (a k : String) (v : PyVal)
    (l : List (String × PyVal)) (h : k = a) :
    List.lookup k ((a, v) :: l) = some v := by
  subst h
  simp [List.lookup]

theorem lookup_cons_ne_key (a k : String) (v : PyVal)
    (l : List (String × PyVal)) (h : ¬k = a) :
    List.lookup k ((a, v) :: l) = List.lookup k l := by
  have hb : (k == a) = false := beq_eq_false_iff_ne.mpr h
  simp [List.lookup, hb]

theorem lookup_map_update_ne (k k2 : String) (v : PyVal)
    (acc : List (String × PyVal)) (h : k2 ≠ k) :
    List.lookup k2 (acc.map fun p => if p.1 = k then (k, v) else p) =
      List.lookup k2 acc := by
  induction acc with
  | nil => rfl
  | cons p rest ih =>
    obtain ⟨a, w⟩ := p
    rw [List.map_cons]
    by_cases hp : a = k
    · rw [show (if (a, w).1 = k then (k, v) else (a, w)) = (k, v) from if_pos hp]
      rw [lookup_cons_ne_key k k2 v _ h,
        lookup_cons_ne_key a k2 w _ (fun he => h (he.trans hp)), ih]
    · rw [show (if (a, w).1 = k then (k, v) else (a, w)) = (a, w) from if_neg hp]
      by_cases hk : k2 = a
      · rw [lookup_cons_eq_key a k2 w _ hk, lookup_cons_eq_key a k2 w _ hk]
      · rw [lookup_cons_ne_key a k2 w _ hk, lookup_cons_ne_key a k2 w _ hk, ih]

theorem lookup_map_update_eq (k : String) (v : PyVal)
    (acc : List (String × PyVal)) (h : acc.any (fun p => p.1 == k) = true) :
    List.lookup k (acc.map fun p => if p.1 = k then (k, v) else p) =
      some v := by
  induction acc with
  | nil => simp at h
  | cons p rest ih =>
    obtain ⟨a, w⟩ := p
    rw [List.map_cons]
    by_cases hp : a = k
    · rw [show (if (a, w).1 = k then (k, v) else (a, w)) = (k, v) from if_pos hp]
      exact lookup_cons_eq_key k k v _ rfl
    · rw [show (if (a, w).1 = k then (k, v) else (a, w)) = (a, w) from if_neg hp]
      have hr : rest.any (fun p => p.1 == k) = true := by
        simp only [List.any_cons, Bool.or_eq_true, beq_iff_eq] at h
        rcases h with h1 | h1
        · exact absurd h1 hp
        · simpa using h1
      rw [lookup_cons_ne_key a k w _ (fun he => hp he.symm), ih hr]

theorem lookup_append_single_eq (k : String) (v : PyVal)
    (acc : List (String × PyVal)) (h : acc.any (fun p => p.1 == k) = false) :
    List.lookup k (acc ++ [(k, v)]) = some v := by
  induction acc with
  | nil => exact lookup_cons_eq_key k k v _ rfl
  | cons p rest ih =>
    obtain ⟨a, w⟩ := p
    simp only [List.any_cons, Bool.or_eq_false_iff, beq_eq_false_iff_ne] at h
    rw [List.cons_append,
      lookup_cons_ne_key a k w _ (fun he => h.1 (he.symm)), ih (by simpa using h.2)]

theorem lookup_append_single_ne (k k2 : String) (v : PyVal)
    (acc : List (String × PyVal)) (h : k2 ≠ k) :
    List.lookup k2 (acc ++ [(k, v)]) = List.lookup k2 acc := by
  induction acc with
  | nil =>
    rw [List.nil_append, lookup_cons_ne_key k k2 v _ h]
  | cons p rest ih =>
    obtain ⟨a, w⟩ := p
    rw [List.cons_append]
    by_cases hk : k2 = a
    · rw [lookup_cons_eq_key a k2 w _ hk, lookup_cons_eq_key a k2 w _ hk]
    · rw [lookup_cons_ne_key a k2 w _ hk, lookup_cons_ne_key a k2 w _ hk, ih]

theorem lookup_dictInsert (acc : List (String × PyVal)) (k : String)
    (v : PyVal) (k2 : String) :
    List.lookup k2 (dictInsert acc k v) =
      if k2 = k then some v else List.lookup k2 acc := by
  unfold dictInsert
  by_cases hmem : acc.any (fun p => p.1 == k) = true
  · rw [if_pos hmem]
    by_cases hk : k2 = k
    · subst hk
      rw [if_pos rfl, lookup_map_update_eq k2 v acc hmem]
    · rw [if_neg hk, lookup_map_update_ne k k2 v acc hk]
  · rw [if_neg hmem]
    have hmem2 : acc.any (fun p => p.1 == k) = false := by
      cases hcc : acc.any (fun p => p.1 == k)
      · rfl
      · exact absurd hcc hmem
    by_cases hk : k2 = k
    · subst hk
      rw [if_pos rfl, lookup_append_single_eq k2 v acc hmem2]
    · rw [if_neg hk, lookup_append_single_ne k k2 v acc hk]

theorem buildDictEntries_ok_all (coerce : String → Except PyErr PyVal)
    (values : List String) :
    ∀ (acc d : List (String × PyVal)),
      buildDictEntries coerce values acc = .ok d →
      ∀ t ∈ values, (tokenKV t).isSome = true := by
  induction values with
  | nil => intro acc d _ t ht; cases ht
  | cons v rest ih =>
    intro acc d h t ht
    rw [buildDictEntries] at h
    split at h
    · next k val heq =>
      split at h
      · next pv hco =>
        rcases List.mem_cons.mp ht with he | hm
        · subst he
          rw [show tokenKV t = some (k, val) from (tokenKV_some_iff t k val).mpr heq]
          rfl
        · exact ih (dictInsert acc k pv) d h t hm
      · next e hco => cases h
    · next hne => cases h

theorem buildDictEntries_lookup (coerce : String → Except PyErr PyVal)
    (values : List String) :
    ∀ acc : List (String × PyVal),
      (∀ t ∈ values, tokenOk coerce t = true) →
      ∃ d, buildDictEntries coerce values acc = .ok d ∧
        ∀ k, List.lookup k d =
          (match lastKV values k with
           | some v => (coerce v).toOption
           | none => List.lookup k acc) := by
  induction values with
  | nil =>
    intro acc _
    exact ⟨acc, rfl, fun k => by simp [lastKV]⟩
  | cons t rest ih =>
    intro acc hok
    have hts := hok t (List.mem_cons_self t rest)
    unfold tokenOk at hts
    cases htk : tokenKV t with
    | none => rw [htk] at hts; exact Bool.noConfusion hts
    | some kv =>
      rw [htk] at hts
      obtain ⟨k0, v0⟩ := kv
      have hts2 : (coerce v0).isOk = true := hts
      cases hco : coerce v0 with
      | error e =>
        rw [hco] at hts2
        exact Bool.noConfusion hts2
      | ok w =>
        have hsplit := (tokenKV_some_iff t k0 v0).mp htk
        obtain ⟨d, hd, hlook⟩ :=
          ih (dictInsert acc k0 w)
            (fun q hq => hok q (List.mem_cons_of_mem t hq))
        refine ⟨d, ?_, ?_⟩
        · rw [buildDictEntries, hsplit]
          show (match coerce v0 with
                | .ok pv => buildDictEntries coerce rest (dictInsert acc k0 pv)
                | .error e => .error e) = .ok d
          rw [hco]
          exact hd
        · intro k
          rw [hlook k]
          cases hlast : lastKV rest k with
          | some v => simp [lastKV, hlast]
          | none =>
            simp only [lastKV, hlast, htk]
            by_cases hk : k0 = k
            · subst hk
              simp [lookup_dictInsert, hco, Except.toOption]
            · simp [lookup_dictInsert, Ne.symm hk, hk]

/-- C2 counterexample: in the multi-token path a token with two
separators is not split on the first separator but rejected
(tuple unpacking fails), and a token with an empty key is accepted
rather than rejected: both contradict the claim. -/
theorem claim_C2_counterexample :
    (dictParsingAction pyStrCoerce ["a=1", "b=2=3"]).isOk = false ∧
    dictParsingAction pyStrCoerce ["=5", "x=1"] =
      .ok (.dictVal [("", .str "5"), ("x", .str "1")]) :=
  ⟨rfl, rfl⟩

/-- C2 amended: in the multi-token path every token must split on
the separator into exactly a key and a value, so a token containing
no separator or more than one is an error; the key may be empty; the
value is coerced with the value type; and the resulting mapping obeys
last write wins: each key maps to the coercion of the value part of
the last token carrying that key. -/
theorem claim_C2 (coerce : String → Except PyErr PyVal)
    (values : List String) :
    ((∀ t ∈ values, tokenOk coerce t = true) →
      ∃ d, dictParsingAction coerce values = .ok (.dictVal d) ∧
        ∀ k, List.lookup k d =
          (match lastKV values k with
           | some v => (coerce v).toOption
           | none => none)) ∧
    ((values.length = 1 → containsChar '=' (values.headD "") = true) →
      (∃ t ∈ values, tokenKV t = none) →
      (dictParsingAction coerce values).isOk = false) := by
  constructor
  · intro hok
    obtain ⟨d, hd, hlook⟩ := buildDictEntries_lookup coerce values [] hok
    have hres : dictParsingAction coerce values = .ok (.dictVal d) := by
      cases hv : values with
      | nil =>
        rw [hv] at hd
        have hd2 : ([] : List (String × PyVal)) = d := by injection hd
        subst hd2
        rfl
      | cons v vrest =>
        rw [hv] at hd hok
        cases vrest with
        | nil =>
          have hts := hok v (List.mem_cons_self v [])
          unfold tokenOk at hts
          cases htk : tokenKV v with
          | none => rw [htk] at hts; exact Bool.noConfusion hts
          | some kv =>
            have hcont := contains_of_tokenKV v kv htk
            simp [dictParsingAction, hcont, hd, Except.map]
        | cons v2 vrest2 =>
          simp [dictParsingAction, hd, Except.map]
    refine ⟨d, hres, fun k => ?_⟩
    rw [hlook k]
    cases lastKV values k <;> simp [List.lookup]
  · intro hpath ⟨t, ht, htk⟩
    have hdict : dictParsingAction coerce values =
        (buildDictEntries coerce values []).map .dictVal := by
      cases hv : values with
      | nil => rfl
      | cons v vrest =>
        rw [hv] at hpath
        cases vrest with
        | nil =>
          have hcv : containsChar '=' v = true := hpath rfl
          simp [dictParsingAction, hcv]
        | cons v2 vrest2 => rfl
    rw [hdict]
    cases hb : buildDictEntries coerce values [] with
    | error e => rfl
    | ok d =>
      have := buildDictEntries_ok_all coerce values [] d hb t ht
      rw [htk] at this
      cases this

theorem claim_C2_witness :
    ∃ d, dictParsingAction pyStrCoerce ["a=1", "a=2"] = .ok (.dictVal d) ∧
      ∀ k, List.lookup k d =
        (match lastKV ["a=1", "a=2"] k with
         | some v => (pyStrCoerce v).toOption
         | none => none) :=
  (claim_C2 pyStrCoerce ["a=1", "a=2"]).1 (by decide)

theorem claim_C10_witness :
    ([⟨"--first-arg", "first_arg",
        { help := "", type_ := some .int, required := true }⟩] :
          List ArgSpec).map ArgSpec.dest =
      ([⟨"first_arg", .positionalOrKeyword, .int, none⟩] :
          List Param).map Param.name ∧
    ([⟨"--first-arg", "first_arg",
        { help := "", type_ := some .int, required := true }⟩] :
          List ArgSpec).map ArgSpec.flag =
      ([⟨"first_arg", .positionalOrKeyword, .int, none⟩] :
          List Param).map (flagOfName ∘ Param.name) :=
  claim_C10 "" [⟨"first_arg", .positionalOrKeyword, .int, none⟩]
    [⟨"--first-arg", "first_arg",
      { help := "", type_ := some .int, required := true }⟩]
    rfl (by decide)

/-! ## C6 -/

theorem parseHelpLines_skip (name : String) (pre rest : List String)
    (h : ∀ l ∈ pre, l ≠ markerOf name) :
    parseHelpLines name (pre ++ rest) "" false =
      parseHelpLines name rest "" false := by
  induction pre with
  | nil => rfl
  | cons l pre2 ih =>
    have hl : ¬l = "        " ++ name ++ ":" :=
      h l (List.mem_cons_self l pre2)
    rw [List.cons_append, parseHelpLines, if_neg hl]
    simp only [Bool.and_false, Bool.false_eq_true, if_false]
    exact ih fun q hq => h q (List.mem_cons_of_mem l hq)

theorem parseHelpLines_acc (name : String) (cont : List String) (stop : String)
    (rest : List String)
    (hc : ∀ l ∈ cont, lineStartsWith "            " l = true)
    (hcm : ∀ l ∈ cont, l ≠ markerOf name)
    (hs : lineStartsWith "            " stop = false)
    (hsm : stop ≠ markerOf name) :
    ∀ acc : String,
      parseHelpLines name (cont ++ stop :: rest) acc true =
        acc ++ helpConcat cont := by
  induction cont with
  | nil =>
    intro acc
    have hstop : ¬stop = "        " ++ name ++ ":" := hsm
    rw [List.nil_append, parseHelpLines, if_neg hstop, if_pos (by rw [hs]; rfl)]
    rw [helpConcat, String.append_empty]
  | cons l cont2 ih =>
    intro acc
    have hl : ¬l = "        " ++ name ++ ":" :=
      hcm l (List.mem_cons_self l cont2)
    have hl12 : lineStartsWith "            " l = true :=
      hc l (List.mem_cons_self l cont2)
    rw [List.cons_append, parseHelpLines, if_neg hl,
      if_neg (by rw [hl12]; simp), if_pos rfl]
    rw [ih (fun q hq => hc q (List.mem_cons_of_mem l hq))
      (fun q hq => hcm q (List.mem_cons_of_mem l hq)) (acc ++ " " ++ pyStrip l)]
    rw [helpConcat, String.append_assoc acc " " (pyStrip l),
      String.append_assoc acc (" " ++ pyStrip l) (helpConcat cont2)]

/-- C6 counterexample: for a marker line followed by two continuation
lines stripping to foo and bar, the extracted help is a space
followed by foo bar, not the plain space-join foo bar the claim
predicts: the accumulated text always carries one leading space. -/
theorem claim_C6_counterexample :
    parse_help "        a:\n            foo\n            bar" "a" =
      " foo bar" ∧
    (" foo bar" : String) ≠ "foo bar" :=
  ⟨rfl, by decide⟩

/-- C6 amended: for documentation whose lines are a prefix without
the marker line, then the marker line of eight spaces, the name and a
colon, then continuation lines indented by at least twelve spaces,
then a stopping line neither indented by twelve spaces nor equal to
the marker: the extracted help is the concatenation, over the
continuation lines, of one space followed by the stripped line (one
leading space, then the stripped lines joined by single spaces); the
block ends at that first non-indented line; and the empty string is
returned when the marker line never occurs. -/
theorem claim_C6 (name stop : String) (pre cont rest : List String)
    (hnl : ∀ l ∈ pre ++ markerOf name :: (cont ++ stop :: rest),
      '\n' ∉ l.data)
    (hpre : ∀ l ∈ pre, l ≠ markerOf name)
    (hpre_ne : pre ≠ [])
    (hc : ∀ l ∈ cont, lineStartsWith "            " l = true)
    (hcm : ∀ l ∈ cont, l ≠ markerOf name)
    (hs : lineStartsWith "            " stop = false)
    (hsm : stop ≠ markerOf name) :
    parse_help (joinLines (pre ++ markerOf name :: (cont ++ stop :: rest)))
        name = helpConcat cont ∧
    parse_help (joinLines pre) name = "" := by
  constructor
  · rw [parse_help,
      splitLines_joinLines (pre ++ markerOf name :: (cont ++ stop :: rest))
        (by simp) hnl,
      parseHelpLines_skip name pre (markerOf name :: (cont ++ stop :: rest)) hpre,
      parseHelpLines,
      if_pos (show markerOf name = "        " ++ name ++ ":" from rfl),
      parseHelpLines_acc name cont stop rest hc hcm hs hsm "",
      String.empty_append]
  · rw [parse_help,
      splitLines_joinLines pre hpre_ne
        (fun l hl => hnl l (List.mem_append_left _ hl))]
    have := parseHelpLines_skip name pre [] hpre
    rw [List.append_nil] at this
    rw [this]
    rfl

theorem claim_C6_witness :
    parse_help (joinLines (["intro text"] ++ markerOf "a" ::
        (["            foo", "            bar"] ++ "        b:" ::
          ["            baz"]))) "a" =
      helpConcat ["            foo", "            bar"] ∧
    parse_help (joinLines ["intro text"]) "a" = "" :=
  claim_C6 "a" "        b:" ["intro text"]
    ["            foo", "            bar"] ["            baz"]
    (by decide) (by decide) (by decide) (by decide) (by decide) (by decide)
    (by decide)

end Typeo
